import Mathlib

/-!
Formal model of the WebKit favicon database subsystem (`WebCore/loader/icon/IconDatabase.h`)
and of the Drosera debugger document (`WebKitTools/Drosera/DebuggerDocument.cpp`).

The repository contains only the `IconDatabase` class header, so the behaviour of its
methods is modelled from the natural-language specification of the subsystem
(`spec.md`); each such definition carries a doc comment starting with
`Modelled from the spec:` naming the missing implementation.  `DebuggerDocument.cpp`
is present in full and its functions are embedded directly from the source.

Maps are embedded as association lists (`String` keys), sets as duplicate-free lists.
-/

/-! ## Association-list and set helpers -/

/-- Lookup in an association list with `String` keys (models `HashMap::get`). -/
def alookup {β : Type} (k : String) : List (String × β) → Option β
  | [] => none
  | (a, b) :: t => if k = a then some b else alookup k t

/-- Insert-or-replace in an association list (models `HashMap::set`).
A new key is appended at the end; an existing key is replaced in place. -/
def aupsert {β : Type} (k : String) (v : β) : List (String × β) → List (String × β)
  | [] => [(k, v)]
  | (a, b) :: t => if k = a then (k, v) :: t else (a, b) :: aupsert k v t

/-- Remove a key from an association list (models `HashMap::remove`; every
entry with the key is removed). -/
def aerase {β : Type} (k : String) : List (String × β) → List (String × β)
  | [] => []
  | (a, b) :: t => if k = a then aerase k t else (a, b) :: aerase k t

/-- Insert into a set-as-list (models `HashSet::add`). -/
def sinsert (x : String) (l : List String) : List String :=
  if x ∈ l then l else x :: l

/-- Remove from a set-as-list (models `HashSet::remove`). -/
def sremove (x : String) : List String → List String
  | [] => []
  | y :: t => if y = x then sremove x t else y :: sremove x t

theorem alookup_aupsert_self {β : Type} (k : String) (v : β) (l : List (String × β)) :
    alookup k (aupsert k v l) = some v := by
  induction l with
  | nil => simp [alookup, aupsert]
  | cons hd t ih =>
    obtain ⟨a, b⟩ := hd
    by_cases h : k = a
    · simp [alookup, aupsert, h]
    · simp [alookup, aupsert, h, ih]

theorem alookup_aupsert_ne {β : Type} {q k : String} (h : q ≠ k) (v : β)
    (l : List (String × β)) : alookup q (aupsert k v l) = alookup q l := by
  induction l with
  | nil => simp [alookup, aupsert, h]
  | cons hd t ih =>
    obtain ⟨a, b⟩ := hd
    by_cases hk : k = a
    · subst hk
      simp [alookup, aupsert, h]
    · by_cases hq : q = a
      · simp [alookup, aupsert, hk, hq]
      · simp [alookup, aupsert, hk, hq, ih]

theorem alookup_aerase_ne {β : Type} {q k : String} (h : q ≠ k)
    (l : List (String × β)) : alookup q (aerase k l) = alookup q l := by
  induction l with
  | nil => simp [aerase]
  | cons hd t ih =>
    obtain ⟨a, b⟩ := hd
    by_cases hk : k = a
    · subst hk
      simp [alookup, aerase, h, ih]
    · by_cases hq : q = a
      · simp [alookup, aerase, hk, hq]
      · simp [alookup, aerase, hk, hq, ih]

theorem alookup_aerase_self {β : Type} (k : String) (l : List (String × β)) :
    alookup k (aerase k l) = none := by
  induction l with
  | nil => simp [aerase, alookup]
  | cons hd t ih =>
    obtain ⟨a, b⟩ := hd
    by_cases hk : k = a
    · subst hk
      simp [aerase, ih]
    · simp [aerase, alookup, hk, ih]

theorem aupsert_aupsert {β : Type} (k : String) (v w : β) (l : List (String × β)) :
    aupsert k v (aupsert k w l) = aupsert k v l := by
  induction l with
  | nil => simp [aupsert]
  | cons hd t ih =>
    obtain ⟨a, b⟩ := hd
    by_cases h : k = a
    · simp [aupsert, h]
    · simp [aupsert, h, ih]

theorem aupsert_self_of_alookup {β : Type} {k : String} {v : β} {l : List (String × β)}
    (h : alookup k l = some v) : aupsert k v l = l := by
  induction l with
  | nil => simp [alookup] at h
  | cons hd t ih =>
    obtain ⟨a, b⟩ := hd
    by_cases hk : k = a
    · subst hk
      simp [alookup] at h
      simp [aupsert, h]
    · simp [alookup, hk] at h
      simp [aupsert, hk, ih h]

theorem aerase_aupsert_of_alookup_none {β : Type} {k : String} {l : List (String × β)}
    (v : β) (h : alookup k l = none) : aerase k (aupsert k v l) = l := by
  induction l with
  | nil => simp [aerase, aupsert]
  | cons hd t ih =>
    obtain ⟨a, b⟩ := hd
    by_cases hk : k = a
    · subst hk
      simp [alookup] at h
    · simp [alookup, hk] at h
      simp [aerase, aupsert, hk, ih h]

theorem alookup_filter_key {β : Type} {q : String} (g : String → Bool)
    (l : List (String × β)) (h : g q = true) :
    alookup q (l.filter (fun row => g row.1)) = alookup q l := by
  induction l with
  | nil => simp
  | cons hd t ih =>
    obtain ⟨a, b⟩ := hd
    by_cases hq : q = a
    · subst hq
      simp [List.filter, h, alookup]
    · by_cases hg : g a
      · simp [List.filter, hg, alookup, hq, ih]
      · simp [List.filter, hg, alookup, hq, ih]

theorem sinsert_of_mem {x : String} {l : List String} (h : x ∈ l) : sinsert x l = l := by
  simp [sinsert, h]

theorem mem_sinsert {q x : String} {l : List String} :
    q ∈ sinsert x l ↔ q = x ∨ q ∈ l := by
  by_cases h : x ∈ l
  · rw [sinsert_of_mem h]
    constructor
    · exact Or.inr
    · rintro (rfl | hq)
      · exact h
      · exact hq
  · simp [sinsert, h, List.mem_cons]

theorem mem_sremove {q x : String} {l : List String} :
    q ∈ sremove x l ↔ q ∈ l ∧ q ≠ x := by
  induction l with
  | nil => simp [sremove]
  | cons y t ih =>
    by_cases hy : y = x
    · subst hy
      have hs : sremove y (y :: t) = sremove y t := by simp [sremove]
      rw [hs, ih]
      constructor
      · rintro ⟨hq, hne⟩
        exact ⟨List.mem_cons_of_mem _ hq, hne⟩
      · rintro ⟨hq, hne⟩
        rcases List.mem_cons.mp hq with rfl | hq
        · exact absurd rfl hne
        · exact ⟨hq, hne⟩
    · have hs : sremove x (y :: t) = y :: sremove x t := by simp [sremove, hy]
      rw [hs]
      constructor
      · intro hq
        rcases List.mem_cons.mp hq with rfl | hq
        · exact ⟨List.mem_cons_self _ _, fun hx => hy hx⟩
        · exact ⟨List.mem_cons_of_mem _ (ih.mp hq).1, (ih.mp hq).2⟩
      · rintro ⟨hq, hne⟩
        rcases List.mem_cons.mp hq with rfl | hq
        · exact List.mem_cons_self _ _
        · exact List.mem_cons_of_mem _ (ih.mpr ⟨hq, hne⟩)

theorem sremove_of_not_mem {x : String} {l : List String} (h : x ∉ l) : sremove x l = l := by
  induction l with
  | nil => rfl
  | cons y t ih =>
    have h1 : ¬y = x := fun hxy => h (by simp [hxy.symm])
    have h2 : x ∉ t := fun hx => h (List.mem_cons_of_mem _ hx)
    simp [sremove, h1, ih h2]

theorem sremove_sinsert_of_not_mem {x : String} {l : List String} (h : x ∉ l) :
    sremove x (sinsert x l) = l := by
  simp [sinsert, h, sremove, sremove_of_not_mem h]

/-! ## Data model of the icon database

Mirrors the data structures declared in `WebCore/loader/icon/IconDatabase.h`;
record attributes follow section 3 of the specification (the classes `IconRecord`,
`PageURLRecord`, `IconSnapshot` and `PageURLSnapshot` are forward-declared in the
header and their definitions are not in the repository). -/

/-- Raw favicon image bytes (`SharedBuffer` contents). -/
abbrev IconBytes := List Nat

/-- Modelled from the spec: the `IconRecord` class (its definition,
`IconRecord.h`, is not in the repository).  `m_dataSet` is the flag indicating
whether an attempt has been made to obtain the bytes (the on-disk row has been
read, or fresh bytes arrived); `m_imageData` is the optional payload;
`m_stamp` is the timestamp of last successful fetch in seconds; the
back-references to associated pages are kept as a set of page URLs. -/
structure IconRecord where
  m_iconURL : String
  m_dataSet : Bool
  m_imageData : Option IconBytes
  m_stamp : Nat
  m_retainingPageURLs : List String
deriving Repr, DecidableEq

/-- Modelled from the spec: the `PageURLRecord` class (its definition,
`PageURLRecord.h`, is not in the repository).  The pointer to the current
`IconRecord` is represented by the optional icon URL. -/
structure PageURLRecord where
  m_pageURL : String
  m_iconURL : Option String
  m_retainCount : Nat
deriving Repr, DecidableEq

/-- Modelled from the spec: the `IconSnapshot` value copy placed in the
icons-pending-sync map; `deletionMarker` encodes a scheduled deletion. -/
structure IconSnapshot where
  m_iconURL : String
  m_timestamp : Nat
  m_data : Option IconBytes
  deletionMarker : Bool
deriving Repr, DecidableEq

/-- Modelled from the spec: the `PageURLSnapshot` value copy placed in the
page-URLs-pending-sync map; `deletionMarker` encodes a scheduled deletion. -/
structure PageURLSnapshot where
  m_pageURL : String
  m_iconURL : Option String
  deletionMarker : Bool
deriving Repr, DecidableEq

/-- One row of the logical icon tables (`IconInfo` joined with `IconData` on the
icon URL): the fetch timestamp and the optional blob. -/
structure IconTableRow where
  m_stamp : Nat
  m_data : Option IconBytes
deriving Repr, DecidableEq

/-- The persistent SQL store owned by the sync actor (`m_syncDB`), reduced to its
logical schema: `PageURL(url, iconURL)` and the icon tables keyed by icon URL. -/
structure PersistentStore where
  pageRows : List (String × Option String)
  iconRows : List (String × IconTableRow)
deriving Repr, DecidableEq

/-- The empty-schema baseline: tables exist but hold no rows. -/
def emptyStore : PersistentStore := { pageRows := [], iconRows := [] }

/-- The state of the icon database, following the member list of the
`IconDatabase` class in `IconDatabase.h` (maps and sets become association
lists and lists; `m_syncDB` is the persistent store). -/
structure IconDatabase where
  m_isEnabled : Bool
  m_privateBrowsingEnabled : Bool
  m_iconURLImportComplete : Bool
  m_iconURLToRecordMap : List (String × IconRecord)
  m_pageURLToRecordMap : List (String × PageURLRecord)
  m_retainedPageURLs : List String
  m_pageURLsPendingSync : List (String × PageURLSnapshot)
  m_iconsPendingSync : List (String × IconSnapshot)
  m_pageURLsPendingImport : List String
  m_pageURLsInterestedInIcons : List String
  m_iconsPendingReading : List String
  m_syncDB : PersistentStore
deriving Repr, DecidableEq

/-- The freshly opened database: enabled, nothing in memory, URL import not yet
complete, empty persistent store. -/
def initialIconDatabase : IconDatabase :=
  { m_isEnabled := true
    m_privateBrowsingEnabled := false
    m_iconURLImportComplete := false
    m_iconURLToRecordMap := []
    m_pageURLToRecordMap := []
    m_retainedPageURLs := []
    m_pageURLsPendingSync := []
    m_iconsPendingSync := []
    m_pageURLsPendingImport := []
    m_pageURLsInterestedInIcons := []
    m_iconsPendingReading := []
    m_syncDB := emptyStore }

/-- Retain count of a page URL: the count held by its `PageURLRecord`,
0 when no record exists. -/
def pageRetainCount (s : IconDatabase) (pageURL : String) : Nat :=
  match alookup pageURL s.m_pageURLToRecordMap with
  | some r => r.m_retainCount
  | none => 0

/-! ## Operations of the UI actor

All method bodies below are modelled from the specification, because the
repository contains only the class header `IconDatabase.h`; the corresponding
implementation file (`IconDatabase.cpp`) is absent. -/

/-- Modelled from the spec: `IconDatabase::retainIconForPageURL` (implementation
absent from the repository).  An empty page URL is rejected silently; otherwise
the page record is created on first retain, its retain count is incremented and
the page URL is placed in the retention set. -/
def retainIconForPageURL (s : IconDatabase) (pageURL : String) : IconDatabase :=
  if pageURL = "" then s
  else
    match alookup pageURL s.m_pageURLToRecordMap with
    | some r =>
      { s with
        m_pageURLToRecordMap :=
          aupsert pageURL { r with m_retainCount := r.m_retainCount + 1 } s.m_pageURLToRecordMap
        m_retainedPageURLs := sinsert pageURL s.m_retainedPageURLs }
    | none =>
      { s with
        m_pageURLToRecordMap :=
          aupsert pageURL ⟨pageURL, none, 1⟩ s.m_pageURLToRecordMap
        m_retainedPageURLs := sinsert pageURL s.m_retainedPageURLs }

/-- Modelled from the spec: `IconDatabase::releaseIconForPageURL` (implementation
absent from the repository).  Release of an unretained page URL is a no-op (the
misuse is only logged).  When the count drops to zero the page URL leaves the
retention set and, provided no pending write references the page, the record is
removed from the map and (per the design notes) detached from its icon's
back-reference set. -/
def releaseIconForPageURL (s : IconDatabase) (pageURL : String) : IconDatabase :=
  if pageURL = "" then s
  else
    match alookup pageURL s.m_pageURLToRecordMap with
    | none => s
    | some r =>
      if r.m_retainCount = 0 then s
      else if r.m_retainCount = 1 then
        if (alookup pageURL s.m_pageURLsPendingSync).isSome then
          { s with
            m_pageURLToRecordMap :=
              aupsert pageURL { r with m_retainCount := 0 } s.m_pageURLToRecordMap
            m_retainedPageURLs := sremove pageURL s.m_retainedPageURLs }
        else
          let s1 :=
            { s with
              m_pageURLToRecordMap := aerase pageURL s.m_pageURLToRecordMap
              m_retainedPageURLs := sremove pageURL s.m_retainedPageURLs }
          match r.m_iconURL with
          | none => s1
          | some iconURL =>
            match alookup iconURL s1.m_iconURLToRecordMap with
            | none => s1
            | some ir =>
              { s1 with
                m_iconURLToRecordMap :=
                  aupsert iconURL
                    { ir with m_retainingPageURLs := sremove pageURL ir.m_retainingPageURLs }
                    s1.m_iconURLToRecordMap }
      else
        { s with
          m_pageURLToRecordMap :=
            aupsert pageURL { r with m_retainCount := r.m_retainCount - 1 } s.m_pageURLToRecordMap }

/-- Modelled from the spec: `IconDatabase::setIconDataForIconURL` (implementation
absent from the repository).  Disabled databases and private browsing suppress
the write entirely; an empty icon URL is rejected silently.  Otherwise the bytes
are stored into the icon record, stamped `now`, and an icon snapshot is enqueued
for write. -/
def setIconDataForIconURL (s : IconDatabase) (data : Option IconBytes)
    (iconURL : String) (now : Nat) : IconDatabase :=
  if s.m_isEnabled = false ∨ s.m_privateBrowsingEnabled = true then s
  else if iconURL = "" then s
  else
    let r : IconRecord :=
      match alookup iconURL s.m_iconURLToRecordMap with
      | some r => r
      | none => ⟨iconURL, false, none, 0, []⟩
    { s with
      m_iconURLToRecordMap :=
        aupsert iconURL
          { r with m_dataSet := true, m_imageData := data, m_stamp := now }
          s.m_iconURLToRecordMap
      m_iconsPendingSync :=
        aupsert iconURL ⟨iconURL, now, data, false⟩ s.m_iconsPendingSync }

/-- Modelled from the spec: the `get_or_create_icon` step of
`IconDatabase::setIconURLForPageURL` (implementation absent from the
repository).  A newly created icon record is registered in the pending-read
set. -/
def createIconIfAbsent (s : IconDatabase) (iconURL : String) : IconDatabase :=
  match alookup iconURL s.m_iconURLToRecordMap with
  | some _ => s
  | none =>
    { s with
      m_iconURLToRecordMap :=
        aupsert iconURL ⟨iconURL, false, none, 0, []⟩ s.m_iconURLToRecordMap
      m_iconsPendingReading := sinsert iconURL s.m_iconsPendingReading }

/-- Modelled from the spec: the detach step of `associate` in
`IconDatabase::setIconURLForPageURL` (implementation absent from the
repository).  The page is removed from its previous icon's back-reference set;
an icon left orphaned is removed from the map and scheduled for deletion via a
pending-sync entry encoding delete. -/
def detachFromOldIcon (s : IconDatabase) (pageURL : String) : Option String → IconDatabase
  | none => s
  | some oldIconURL =>
    match alookup oldIconURL s.m_iconURLToRecordMap with
    | none => s
    | some oldRec =>
      let remaining := sremove pageURL oldRec.m_retainingPageURLs
      if remaining = [] then
        { s with
          m_iconURLToRecordMap := aerase oldIconURL s.m_iconURLToRecordMap
          m_iconsPendingSync :=
            aupsert oldIconURL ⟨oldIconURL, 0, none, true⟩ s.m_iconsPendingSync }
      else
        { s with
          m_iconURLToRecordMap :=
            aupsert oldIconURL { oldRec with m_retainingPageURLs := remaining }
              s.m_iconURLToRecordMap }

/-- Modelled from the spec: the `get_or_create_page` bookkeeping of
`IconDatabase::setIconURLForPageURL` (implementation absent from the
repository): a page URL not yet known while the URL import is still running is
added to the pending-import set so the sync actor resolves its mapping. -/
def registerImportIfNew (s : IconDatabase) (pageURL : String) : IconDatabase :=
  if (alookup pageURL s.m_pageURLToRecordMap).isSome ∨ s.m_iconURLImportComplete then s
  else { s with m_pageURLsPendingImport := sinsert pageURL s.m_pageURLsPendingImport }

/-- Modelled from the spec: `IconDatabase::setIconURLForPageURL` (implementation
absent from the repository).  Writes are gated on the enabled flag and private
browsing; empty URLs are rejected silently.  A new page record is registered
for import resolution while the URL import is still running; it is detached
from its previous icon, attached to the (possibly created) new icon, and the
association is enqueued for write. -/
def setIconURLForPageURL (s : IconDatabase) (iconURL pageURL : String) : IconDatabase :=
  if s.m_isEnabled = false ∨ s.m_privateBrowsingEnabled = true then s
  else if iconURL = "" ∨ pageURL = "" then s
  else
    let pr : PageURLRecord :=
      match alookup pageURL s.m_pageURLToRecordMap with
      | some r => r
      | none => ⟨pageURL, none, 0⟩
    if pr.m_iconURL = some iconURL then s
    else
      let s1 := registerImportIfNew s pageURL
      let s2 := detachFromOldIcon s1 pageURL pr.m_iconURL
      let s3 := createIconIfAbsent s2 iconURL
      let ir : IconRecord :=
        match alookup iconURL s3.m_iconURLToRecordMap with
        | some r => r
        | none => ⟨iconURL, false, none, 0, []⟩
      { s3 with
        m_iconURLToRecordMap :=
          aupsert iconURL
            { ir with m_retainingPageURLs := sinsert pageURL ir.m_retainingPageURLs }
            s3.m_iconURLToRecordMap
        m_pageURLToRecordMap :=
          aupsert pageURL { pr with m_iconURL := some iconURL } s3.m_pageURLToRecordMap
        m_pageURLsPendingSync :=
          aupsert pageURL ⟨pageURL, some iconURL, false⟩ s.m_pageURLsPendingSync }

/-- Modelled from the spec: `IconDatabase::setPrivateBrowsingEnabled`
(implementation absent from the repository). -/
def setPrivateBrowsingEnabled (s : IconDatabase) (flag : Bool) : IconDatabase :=
  { s with m_privateBrowsingEnabled := flag }

/-- Modelled from the spec: `IconDatabase::setEnabled` (implementation absent
from the repository). -/
def setEnabled (s : IconDatabase) (flag : Bool) : IconDatabase :=
  { s with m_isEnabled := flag }

/-- Modelled from the spec: `IconDatabase::removeAllIcons` together with the
sync actor's `removeAllIconsOnThread` (implementations absent from the
repository).  The call returns only after the on-disk truncation, so it is
modelled as one completed operation: all in-memory state is cleared, prior
pending writes are discarded, and the store is truncated to the empty-schema
baseline. -/
def removeAllIcons (s : IconDatabase) : IconDatabase :=
  { m_isEnabled := s.m_isEnabled
    m_privateBrowsingEnabled := s.m_privateBrowsingEnabled
    m_iconURLImportComplete := s.m_iconURLImportComplete
    m_iconURLToRecordMap := []
    m_pageURLToRecordMap := []
    m_retainedPageURLs := []
    m_pageURLsPendingSync := []
    m_iconsPendingSync := []
    m_pageURLsPendingImport := []
    m_pageURLsInterestedInIcons := []
    m_iconsPendingReading := []
    m_syncDB := emptyStore }

/-! ## Operations of the sync actor -/

/-- Modelled from the spec: one `(pageURL, iconURL)` row handled by
`IconDatabase::performURLImport` (implementation absent from the repository).
Rows never clobber an existing in-memory page record. -/
def importPageRow (m : List (String × PageURLRecord)) (row : String × Option String) :
    List (String × PageURLRecord) :=
  match alookup row.1 m with
  | some _ => m
  | none => aupsert row.1 ⟨row.1, row.2, 0⟩ m

/-- Modelled from the spec: the icon-map half of one imported row in
`IconDatabase::performURLImport` (implementation absent from the repository).
The icon record is created if absent and the page is recorded as a
back-reference; its bytes stay unread. -/
def importIconRow (m : List (String × IconRecord)) (row : String × Option String) :
    List (String × IconRecord) :=
  match row.2 with
  | none => m
  | some iconURL =>
    match alookup iconURL m with
    | some r =>
      aupsert iconURL
        { r with m_retainingPageURLs := sinsert row.1 r.m_retainingPageURLs } m
    | none => aupsert iconURL ⟨iconURL, false, none, 0, [row.1]⟩ m

/-- Modelled from the spec: `IconDatabase::performURLImport` (implementation
absent from the repository).  Every persisted `(pageURL, iconURL)` row is loaded
into the in-memory maps, the pending-import set is cleared atomically, and
the import-complete flag flips to true. -/
def performURLImport (s : IconDatabase) : IconDatabase :=
  { s with
    m_pageURLToRecordMap := s.m_syncDB.pageRows.foldl importPageRow s.m_pageURLToRecordMap
    m_iconURLToRecordMap := s.m_syncDB.pageRows.foldl importIconRow s.m_iconURLToRecordMap
    m_pageURLsPendingImport := []
    m_iconURLImportComplete := true }

/-- Modelled from the spec: one icon processed by
`IconDatabase::readFromDatabase` (implementation absent from the repository).
The record's bytes are loaded from the store; a missing row yields a definitive
empty result.  Either way the read attempt is recorded. -/
def readIconRow (store : PersistentStore) (m : List (String × IconRecord))
    (iconURL : String) : List (String × IconRecord) :=
  match alookup iconURL m with
  | none => m
  | some r =>
    match alookup iconURL store.iconRows with
    | some row =>
      aupsert iconURL
        { r with m_dataSet := true, m_imageData := row.m_data, m_stamp := row.m_stamp } m
    | none => aupsert iconURL { r with m_dataSet := true, m_imageData := none } m

/-- Modelled from the spec: `IconDatabase::readFromDatabase` (implementation
absent from the repository). -/
def readFromDatabase (s : IconDatabase) : IconDatabase :=
  { s with
    m_iconURLToRecordMap := s.m_iconsPendingReading.foldl (readIconRow s.m_syncDB) s.m_iconURLToRecordMap
    m_iconsPendingReading := [] }

/-- Modelled from the spec: `remove_icon` of the SQL adapter contract
(implementation absent from the repository): the icon row is removed and pages
referencing it have their icon reference cleared. -/
def removeIconFromStore (store : PersistentStore) (iconURL : String) : PersistentStore :=
  { pageRows :=
      store.pageRows.map fun row =>
        if row.2 = some iconURL then (row.1, none) else row
    iconRows := aerase iconURL store.iconRows }

/-- Modelled from the spec: applying one page snapshot during
`IconDatabase::writeToDatabase` (implementation absent from the repository). -/
def applyPageSnapshot (store : PersistentStore) (snap : PageURLSnapshot) : PersistentStore :=
  if snap.deletionMarker then
    { store with pageRows := aerase snap.m_pageURL store.pageRows }
  else
    { store with pageRows := aupsert snap.m_pageURL snap.m_iconURL store.pageRows }

/-- Modelled from the spec: applying one icon snapshot during
`IconDatabase::writeToDatabase` (implementation absent from the repository). -/
def applyIconSnapshot (store : PersistentStore) (snap : IconSnapshot) : PersistentStore :=
  if snap.deletionMarker then removeIconFromStore store snap.m_iconURL
  else
    { store with
      iconRows := aupsert snap.m_iconURL ⟨snap.m_timestamp, snap.m_data⟩ store.iconRows }

/-- Modelled from the spec: `IconDatabase::writeToDatabase` (implementation
absent from the repository).  The pending-sync maps are snapshotted and
cleared, and all upserts and deletes are applied to the store within one
transaction. -/
def writeToDatabase (s : IconDatabase) : IconDatabase :=
  { s with
    m_syncDB :=
      s.m_iconsPendingSync.foldl (fun st e => applyIconSnapshot st e.2)
        (s.m_pageURLsPendingSync.foldl (fun st e => applyPageSnapshot st e.2) s.m_syncDB)
    m_pageURLsPendingSync := []
    m_iconsPendingSync := [] }

/-- Modelled from the spec: the keep test of `IconDatabase::pruneUnretainedIcons`
(implementation absent from the repository): a persisted page row survives iff
its page URL has a positive retain count or appears in a pending-sync entry. -/
def pageRowRetained (s : IconDatabase) (pageURL : String) : Bool :=
  decide (0 < pageRetainCount s pageURL) || (alookup pageURL s.m_pageURLsPendingSync).isSome

/-- Modelled from the spec: `IconDatabase::pruneUnretainedIcons` (implementation
absent from the repository).  Within one transaction, every persisted page with
zero retain count and no pending-sync entry is deleted; then every icon row
with no referring page row is deleted. -/
def pruneUnretainedIcons (s : IconDatabase) : IconDatabase :=
  let keptPages := s.m_syncDB.pageRows.filter fun row => pageRowRetained s row.1
  let keptIcons :=
    s.m_syncDB.iconRows.filter fun row =>
      keptPages.any fun prow => decide (prow.2 = some row.1)
  { s with m_syncDB := { pageRows := keptPages, iconRows := keptIcons } }

/-- Modelled from the spec: `IconDatabase::close` (implementation absent from
the repository).  The sync actor drains its pending work (flushing the
pending-sync queues to the store) and exits; the in-memory state is cleared,
leaving only the persistent store. -/
def closeDatabase (s : IconDatabase) : IconDatabase :=
  { initialIconDatabase with m_syncDB := (writeToDatabase s).m_syncDB }

/-- Modelled from the spec: `IconDatabase::open` followed by the sync actor's
start-up URL import (implementations absent from the repository). -/
def openDatabase (s : IconDatabase) : IconDatabase :=
  performURLImport s

/-! ## Observers of the UI actor -/

/-- The result of `IconDatabase::iconForPageURL`: either the process-wide
default icon or a decoded image backed by the given bytes. -/
inductive ImageResult where
  | defaultIcon : ImageResult
  | icon : IconBytes → ImageResult
deriving Repr, DecidableEq

/-- Modelled from the spec: `IconDatabase::iconForPageURL` (implementation
absent from the repository), restricted to its observable result: the decoded
image for the page's icon bytes when they are in memory, the default icon
otherwise. -/
def iconForPageURL (s : IconDatabase) (pageURL : String) : ImageResult :=
  match alookup pageURL s.m_pageURLToRecordMap with
  | none => ImageResult.defaultIcon
  | some pr =>
    match pr.m_iconURL with
    | none => ImageResult.defaultIcon
    | some iconURL =>
      match alookup iconURL s.m_iconURLToRecordMap with
      | none => ImageResult.defaultIcon
      | some ir =>
        match ir.m_imageData with
        | none => ImageResult.defaultIcon
        | some bytes => ImageResult.icon bytes

/-- The `IconLoadDecision` enumeration from `IconDatabase.h`. -/
inductive IconLoadDecision where
  | IconLoadYes : IconLoadDecision
  | IconLoadNo : IconLoadDecision
  | IconLoadUnknown : IconLoadDecision
deriving Repr, DecidableEq

/-- The expiration horizon: cached bytes older than this force a re-fetch
decision (default four days, in seconds). -/
def iconExpirationSeconds : Nat := 60 * 60 * 24 * 4

/-- Modelled from the spec: the per-record load decision (the `IconRecord`
implementation is absent from the repository).  Unknown until the on-disk row
has been read; then Yes when there are no cached bytes or they are older than
the expiration horizon, and No when cached bytes exist within the horizon. -/
def iconRecordLoadDecision (r : IconRecord) (now : Nat) : IconLoadDecision :=
  if r.m_dataSet = false then IconLoadDecision.IconLoadUnknown
  else
    match r.m_imageData with
    | none => IconLoadDecision.IconLoadYes
    | some _ =>
      if r.m_stamp + iconExpirationSeconds < now then IconLoadDecision.IconLoadYes
      else IconLoadDecision.IconLoadNo

/-- Modelled from the spec: `IconDatabase::loadDecisionForIconURL`
(implementation absent from the repository), restricted to the returned
decision.  An icon URL with no record is Unknown while the URL import is still
running (its row may yet appear) and Yes afterwards. -/
def loadDecisionForIconURL (s : IconDatabase) (iconURL : String) (now : Nat) :
    IconLoadDecision :=
  match alookup iconURL s.m_iconURLToRecordMap with
  | some r => iconRecordLoadDecision r now
  | none =>
    if s.m_iconURLImportComplete then IconLoadDecision.IconLoadYes
    else IconLoadDecision.IconLoadUnknown

/-- Whether the on-disk row for an icon URL has been read: its record's read
attempt has happened, or no record exists and the URL import (which would have
produced the row) already completed. -/
def iconRowRead (s : IconDatabase) (iconURL : String) : Bool :=
  match alookup iconURL s.m_iconURLToRecordMap with
  | some r => r.m_dataSet
  | none => s.m_iconURLImportComplete

/-- The cached bytes held in memory for an icon URL, if any. -/
def cachedIconBytes (s : IconDatabase) (iconURL : String) : Option IconBytes :=
  match alookup iconURL s.m_iconURLToRecordMap with
  | some r => r.m_imageData
  | none => none

/-- The last-fetch timestamp recorded for an icon URL (0 when no record). -/
def iconStamp (s : IconDatabase) (iconURL : String) : Nat :=
  match alookup iconURL s.m_iconURLToRecordMap with
  | some r => r.m_stamp
  | none => 0

/-- The bytes persisted in the store for an icon URL, if a row exists. -/
def persistedIconRow (s : IconDatabase) (iconURL : String) : Option IconTableRow :=
  alookup iconURL s.m_syncDB.iconRows

/-! ## The operations as a transition system -/

/-- One operation of the icon database, UI actor or sync actor. -/
inductive IconDatabaseOp where
  | retain : String → IconDatabaseOp
  | release : String → IconDatabaseOp
  | setIconData : Option IconBytes → String → Nat → IconDatabaseOp
  | setIconURL : String → String → IconDatabaseOp
  | setPrivateBrowsing : Bool → IconDatabaseOp
  | setEnabledFlag : Bool → IconDatabaseOp
  | removeAll : IconDatabaseOp
  | urlImport : IconDatabaseOp
  | readDB : IconDatabaseOp
  | writeDB : IconDatabaseOp
  | prune : IconDatabaseOp
deriving Repr, DecidableEq

/-- Apply one operation to the database state. -/
def applyOp (s : IconDatabase) : IconDatabaseOp → IconDatabase
  | IconDatabaseOp.retain p => retainIconForPageURL s p
  | IconDatabaseOp.release p => releaseIconForPageURL s p
  | IconDatabaseOp.setIconData d u now => setIconDataForIconURL s d u now
  | IconDatabaseOp.setIconURL u p => setIconURLForPageURL s u p
  | IconDatabaseOp.setPrivateBrowsing b => setPrivateBrowsingEnabled s b
  | IconDatabaseOp.setEnabledFlag b => setEnabled s b
  | IconDatabaseOp.removeAll => removeAllIcons s
  | IconDatabaseOp.urlImport => performURLImport s
  | IconDatabaseOp.readDB => readFromDatabase s
  | IconDatabaseOp.writeDB => writeToDatabase s
  | IconDatabaseOp.prune => pruneUnretainedIcons s

/-- The states reachable from the freshly opened database by any finite
sequence of operations. -/
inductive ReachableIconDatabase : IconDatabase → Prop where
  | start : ReachableIconDatabase initialIconDatabase
  | step {s : IconDatabase} (op : IconDatabaseOp) :
      ReachableIconDatabase s → ReachableIconDatabase (applyOp s op)

/-! ## The Drosera debugger document

Embedded from `WebKitTools/Drosera/DebuggerDocument.cpp`, which is present in
the repository.  `CallFrame` is declared in the (absent) header and is used by
the source as a numeric handle (it is passed to `JSValueMakeNumber`), so it is
embedded as an integer; `JSStringRef` is an opaque string handle. -/

/-- A call-frame handle, used by the source as a number. -/
abbrev CallFrame := Int

/-- An opaque JavaScript string handle. -/
abbrev JSStringRef := String

/-- A JavaScript value, restricted to the shapes the embedded functions
produce. -/
inductive JSValue where
  | number : Int → JSValue
  | jsString : String → JSValue
deriving Repr, DecidableEq

/-- A JavaScript context.  Its contents (here, a global environment) are
irrelevant to the embedded functions, which is exactly what the claims about
them assert. -/
structure JSContext where
  globals : List (String × JSValue)
deriving Repr, DecidableEq

/-- `JSValueMakeNumber(ctx, x)`: builds the JS number with value `x`;
the context argument does not influence the value. -/
def JSValueMakeNumber (_context : JSContext) (x : CallFrame) : JSValue :=
  JSValue.number x

/-- The debugger document: the `m_paused` flag plus all remaining members,
abstracted as `rest` (the class definition is in the absent header; none of the
embedded functions touch anything but `m_paused`). -/
structure DebuggerDocument (α : Type) where
  m_paused : Bool
  rest : α
deriving Repr, DecidableEq

namespace DebuggerDocument

/-- `DebuggerDocument::isPaused` (DebuggerDocument.cpp:79-82): returns
`m_paused`. -/
def isPaused {α : Type} (d : DebuggerDocument α) : Bool :=
  d.m_paused

/-- `DebuggerDocument::pause` (DebuggerDocument.cpp:88-91): sets `m_paused`
to true. -/
def pause {α : Type} (d : DebuggerDocument α) : DebuggerDocument α :=
  { d with m_paused := true }

/-- `DebuggerDocument::resume` (DebuggerDocument.cpp:93-96): sets `m_paused`
to false. -/
def resume {α : Type} (d : DebuggerDocument α) : DebuggerDocument α :=
  { d with m_paused := false }

/-- `DebuggerDocument::stepInto` (DebuggerDocument.cpp:98-100): the body is
empty. -/
def stepInto {α : Type} (d : DebuggerDocument α) : DebuggerDocument α :=
  d

/-- `DebuggerDocument::evaluateScript` (DebuggerDocument.cpp:102-105):
`return JSValueMakeNumber(context, frame);`. -/
def evaluateScript {α : Type} (_d : DebuggerDocument α) (context : JSContext)
    (frame : CallFrame) : JSValue :=
  JSValueMakeNumber context frame

/-- `DebuggerDocument::valueForScopeVariableNamed` (DebuggerDocument.cpp:119-122):
`return key;` (the frame argument is unused in the source). -/
def valueForScopeVariableNamed {α : Type} (_d : DebuggerDocument α)
    (_frame : CallFrame) (key : JSStringRef) : JSStringRef :=
  key

end DebuggerDocument

/-- One mutating call on the debugger document, among the three the source
defines for the pause state. -/
inductive DebuggerOp where
  | pauseOp : DebuggerOp
  | resumeOp : DebuggerOp
  | stepIntoOp : DebuggerOp
deriving Repr, DecidableEq

/-- Apply one call to the document. -/
def applyDebuggerOp {α : Type} (d : DebuggerDocument α) : DebuggerOp → DebuggerDocument α
  | DebuggerOp.pauseOp => DebuggerDocument.pause d
  | DebuggerOp.resumeOp => DebuggerDocument.resume d
  | DebuggerOp.stepIntoOp => DebuggerDocument.stepInto d

/-- Apply a sequence of calls, oldest first. -/
def applyDebuggerOps {α : Type} (d : DebuggerDocument α) (ops : List DebuggerOp) :
    DebuggerDocument α :=
  ops.foldl applyDebuggerOp d

/-- The most recent call in the sequence that is `pause` or `resume`, if any. -/
def lastPauseOrResume : List DebuggerOp → Option DebuggerOp
  | [] => none
  | op :: t =>
    match lastPauseOrResume t with
    | some o => some o
    | none =>
      match op with
      | DebuggerOp.stepIntoOp => none
      | o => some o

/-! ## Helper lemmas for the debugger document -/

theorem applyDebuggerOps_cons {α : Type} (d : DebuggerDocument α) (op : DebuggerOp)
    (t : List DebuggerOp) :
    applyDebuggerOps d (op :: t) = applyDebuggerOps (applyDebuggerOp d op) t := rfl

theorem applyDebuggerOps_rest {α : Type} (d : DebuggerDocument α) (ops : List DebuggerOp) :
    (applyDebuggerOps d ops).rest = d.rest := by
  induction ops generalizing d with
  | nil => rfl
  | cons op t ih =>
    rw [applyDebuggerOps_cons, ih]
    cases op <;> rfl

theorem applyDebuggerOps_of_lastPauseOrResume_none {α : Type} (d : DebuggerDocument α)
    {ops : List DebuggerOp} (h : lastPauseOrResume ops = none) :
    applyDebuggerOps d ops = d := by
  induction ops generalizing d with
  | nil => rfl
  | cons op t ih =>
    cases hlt : lastPauseOrResume t with
    | some o => simp [lastPauseOrResume, hlt] at h
    | none =>
      cases op with
      | pauseOp => simp [lastPauseOrResume, hlt] at h
      | resumeOp => simp [lastPauseOrResume, hlt] at h
      | stepIntoOp =>
        rw [applyDebuggerOps_cons]
        exact ih _ hlt

theorem paused_after_lastPauseOrResume {α : Type} (d : DebuggerDocument α)
    (ops : List DebuggerOp) :
    (lastPauseOrResume ops = some DebuggerOp.pauseOp →
      (applyDebuggerOps d ops).m_paused = true) ∧
    (lastPauseOrResume ops = some DebuggerOp.resumeOp →
      (applyDebuggerOps d ops).m_paused = false) := by
  induction ops generalizing d with
  | nil => simp [lastPauseOrResume]
  | cons op t ih =>
    cases hlt : lastPauseOrResume t with
    | some o =>
      constructor
      · intro h
        have ho : o = DebuggerOp.pauseOp := by
          simp [lastPauseOrResume, hlt] at h
          exact h
        rw [applyDebuggerOps_cons]
        exact (ih _).1 (ho ▸ hlt)
      · intro h
        have ho : o = DebuggerOp.resumeOp := by
          simp [lastPauseOrResume, hlt] at h
          exact h
        rw [applyDebuggerOps_cons]
        exact (ih _).2 (ho ▸ hlt)
    | none =>
      cases op with
      | pauseOp =>
        constructor
        · intro _
          rw [applyDebuggerOps_cons, applyDebuggerOps_of_lastPauseOrResume_none _ hlt]
          rfl
        · intro h
          simp [lastPauseOrResume, hlt] at h
      | resumeOp =>
        constructor
        · intro h
          simp [lastPauseOrResume, hlt] at h
        · intro _
          rw [applyDebuggerOps_cons, applyDebuggerOps_of_lastPauseOrResume_none _ hlt]
          rfl
      | stepIntoOp =>
        constructor
        · intro h
          simp [lastPauseOrResume, hlt] at h
        · intro h
          simp [lastPauseOrResume, hlt] at h

/-! ## Claims about the Drosera debugger document -/

/-- C8: `DebuggerDocument::valueForScopeVariableNamed` is the identity on its
key argument: for every call frame and every `JSStringRef` key, it returns
exactly the key it was given. -/
theorem valueForScopeVariableNamed_identity {α : Type} (d : DebuggerDocument α)
    (frame : CallFrame) (key : JSStringRef) :
    DebuggerDocument.valueForScopeVariableNamed d frame key = key := rfl

/-- C10: `DebuggerDocument::evaluateScript` evaluates nothing: for every JS
context and every call-frame value it returns the JS number whose value equals
the frame argument, and its result does not depend on the context at all. -/
theorem evaluateScript_returns_frame_number {α : Type} (d : DebuggerDocument α)
    (context context2 : JSContext) (frame : CallFrame) :
    DebuggerDocument.evaluateScript d context frame = JSValue.number frame ∧
      DebuggerDocument.evaluateScript d context frame =
        DebuggerDocument.evaluateScript d context2 frame :=
  ⟨rfl, rfl⟩

/-- C9: `DebuggerDocument::isPaused` returns true exactly when the most recent
of `pause()`/`resume()` called on the document was `pause()`, and false when it
was `resume()`; `pause` and `resume` modify only the `m_paused` flag, and
`stepInto` leaves the document unchanged. -/
theorem isPaused_tracks_last_pause_or_resume {α : Type} (d : DebuggerDocument α)
    (ops : List DebuggerOp) :
    (lastPauseOrResume ops = some DebuggerOp.pauseOp →
      DebuggerDocument.isPaused (applyDebuggerOps d ops) = true) ∧
    (lastPauseOrResume ops = some DebuggerOp.resumeOp →
      DebuggerDocument.isPaused (applyDebuggerOps d ops) = false) ∧
    (applyDebuggerOps d ops).rest = d.rest ∧
    (DebuggerDocument.pause d).rest = d.rest ∧
    (DebuggerDocument.resume d).rest = d.rest ∧
    DebuggerDocument.stepInto d = d := by
  refine ⟨?_, ?_, applyDebuggerOps_rest d ops, rfl, rfl, rfl⟩
  · exact (paused_after_lastPauseOrResume d ops).1
  · exact (paused_after_lastPauseOrResume d ops).2

/-- A concrete debugger document for the C9 witness. -/
def c9Doc : DebuggerDocument Nat := ⟨false, 7⟩

/-- Witness for C9 at concrete inputs: after `pause(); stepInto()` the document
is paused, and after `pause(); resume()` it is not; the non-flag state is
untouched. -/
theorem isPaused_tracks_last_pause_or_resume_witness :
    DebuggerDocument.isPaused
        (applyDebuggerOps c9Doc [DebuggerOp.pauseOp, DebuggerOp.stepIntoOp]) = true ∧
      DebuggerDocument.isPaused
        (applyDebuggerOps c9Doc [DebuggerOp.pauseOp, DebuggerOp.resumeOp]) = false ∧
      (applyDebuggerOps c9Doc [DebuggerOp.pauseOp, DebuggerOp.stepIntoOp]).rest = 7 :=
  ⟨(isPaused_tracks_last_pause_or_resume c9Doc [DebuggerOp.pauseOp, DebuggerOp.stepIntoOp]).1
      (by decide),
    (isPaused_tracks_last_pause_or_resume c9Doc [DebuggerOp.pauseOp, DebuggerOp.resumeOp]).2.1
      (by decide),
    (isPaused_tracks_last_pause_or_resume c9Doc [DebuggerOp.pauseOp, DebuggerOp.stepIntoOp]).2.2.1⟩

/-! ## Claims about the icon database -/

/-- C1: for every icon URL, once the on-disk row for it has been read the load
decision is Yes exactly when there are no cached bytes or the cached bytes are
older than the expiration horizon (four days), and No exactly when cached bytes
exist within the horizon; while the row has not been read the decision is
Unknown. -/
theorem loadDecision_after_row_read (s : IconDatabase) (iconURL : String) (now : Nat) :
    (iconRowRead s iconURL = true →
      ((loadDecisionForIconURL s iconURL now = IconLoadDecision.IconLoadYes ↔
          (cachedIconBytes s iconURL = none ∨
            iconStamp s iconURL + iconExpirationSeconds < now)) ∧
        (loadDecisionForIconURL s iconURL now = IconLoadDecision.IconLoadNo ↔
          (cachedIconBytes s iconURL ≠ none ∧
            ¬ iconStamp s iconURL + iconExpirationSeconds < now)))) ∧
    (iconRowRead s iconURL = false →
      loadDecisionForIconURL s iconURL now = IconLoadDecision.IconLoadUnknown) := by
  cases h : alookup iconURL s.m_iconURLToRecordMap with
  | none =>
    cases hic : s.m_iconURLImportComplete <;>
      simp [iconRowRead, loadDecisionForIconURL, cachedIconBytes, iconStamp, h, hic]
  | some r =>
    cases hds : r.m_dataSet with
    | false =>
      simp [iconRowRead, loadDecisionForIconURL, cachedIconBytes, iconStamp,
        iconRecordLoadDecision, h, hds]
    | true =>
      cases hd : r.m_imageData with
      | none =>
        simp [iconRowRead, loadDecisionForIconURL, cachedIconBytes, iconStamp,
          iconRecordLoadDecision, h, hds, hd]
      | some bytes =>
        by_cases ht : r.m_stamp + iconExpirationSeconds < now <;>
          simp [iconRowRead, loadDecisionForIconURL, cachedIconBytes, iconStamp,
            iconRecordLoadDecision, h, hds, hd, ht]

/-- A concrete state for the C1 witness: one icon with freshly read bytes, one
icon whose row is still unread, import incomplete. -/
def c1State : IconDatabase :=
  { initialIconDatabase with
    m_iconURLToRecordMap :=
      [("u", ⟨"u", true, some [255], 50, []⟩), ("v", ⟨"v", false, none, 0, []⟩)] }

/-- Witness for C1 at concrete inputs: icon `u` (bytes stamped 50, queried at
time 100) decides No, and icon `v` (row unread) decides Unknown. -/
theorem loadDecision_after_row_read_witness :
    (loadDecisionForIconURL c1State "u" 100 = IconLoadDecision.IconLoadNo ↔
      (cachedIconBytes c1State "u" ≠ none ∧
        ¬ iconStamp c1State "u" + iconExpirationSeconds < 100)) ∧
    loadDecisionForIconURL c1State "v" 100 = IconLoadDecision.IconLoadUnknown :=
  ⟨((loadDecision_after_row_read c1State "u" 100).1 (by decide)).2,
    (loadDecision_after_row_read c1State "v" 100).2 (by decide)⟩

/-- C2: after `removeAllIcons()` completes, every `iconForPageURL` lookup, for
every page URL, returns the default icon, and the persistent store is truncated
to the empty-schema baseline. -/
theorem removeAllIcons_default_and_truncated (s : IconDatabase) (pageURL : String) :
    iconForPageURL (removeAllIcons s) pageURL = ImageResult.defaultIcon ∧
      (removeAllIcons s).m_syncDB = emptyStore := by
  constructor
  · simp [iconForPageURL, removeAllIcons, alookup]
  · rfl

/-- C6: releasing a page URL whose retain count is 0 (no record, or a record
with count 0) is a no-op: the whole database state, in particular the record
maps, the retention set and the pending queues, is unchanged. -/
theorem release_unretained_noop (s : IconDatabase) (pageURL : String)
    (h : pageRetainCount s pageURL = 0) :
    releaseIconForPageURL s pageURL = s := by
  by_cases hp : pageURL = ""
  · simp [releaseIconForPageURL, hp]
  · cases hl : alookup pageURL s.m_pageURLToRecordMap with
    | none => simp [releaseIconForPageURL, hp, hl]
    | some r =>
      have hr : r.m_retainCount = 0 := by
        simpa [pageRetainCount, hl] using h
      simp [releaseIconForPageURL, hp, hl, hr]

/-- A concrete state for the C6 witness: one page record with retain count 0. -/
def c6State : IconDatabase :=
  { initialIconDatabase with
    m_pageURLToRecordMap := [("p", ⟨"p", none, 0⟩)] }

/-- Witness for C6 at a concrete input: releasing the unretained page `p`
leaves the state unchanged. -/
theorem release_unretained_noop_witness :
    releaseIconForPageURL c6State "p" = c6State :=
  release_unretained_noop c6State "p" (by decide)

/-- C5: a pruning pass never deletes a persisted page row whose page URL has a
positive retain count, and never deletes an icon row that a page row remaining
in the store still refers to (a live back-reference). -/
theorem prune_preserves_referenced_rows (s : IconDatabase) (pageURL iconURL : String) :
    (0 < pageRetainCount s pageURL →
      alookup pageURL (pruneUnretainedIcons s).m_syncDB.pageRows =
        alookup pageURL s.m_syncDB.pageRows) ∧
    (((pruneUnretainedIcons s).m_syncDB.pageRows.any fun prow =>
        decide (prow.2 = some iconURL)) = true →
      alookup iconURL (pruneUnretainedIcons s).m_syncDB.iconRows =
        alookup iconURL s.m_syncDB.iconRows) := by
  constructor
  · intro h
    have hg : pageRowRetained s pageURL = true := by
      simp [pageRowRetained, h]
    exact alookup_filter_key (pageRowRetained s) s.m_syncDB.pageRows hg
  · intro h
    have h2 : (fun u =>
        (s.m_syncDB.pageRows.filter fun row => pageRowRetained s row.1).any fun prow =>
          decide (prow.2 = some u)) iconURL = true := h
    have h3 := alookup_filter_key (q := iconURL)
      (fun u =>
        (s.m_syncDB.pageRows.filter fun row => pageRowRetained s row.1).any fun prow =>
          decide (prow.2 = some u))
      s.m_syncDB.iconRows h2
    exact h3

/-- A concrete state for the C5 witness: page `p` is retained and associated
with icon `u`; page `q` is unretained and refers to icon `w`. -/
def c5State : IconDatabase :=
  { initialIconDatabase with
    m_pageURLToRecordMap := [("p", ⟨"p", some "u", 1⟩)]
    m_retainedPageURLs := ["p"]
    m_syncDB :=
      { pageRows := [("p", some "u"), ("q", some "w")]
        iconRows := [("u", ⟨5, some [1]⟩), ("w", ⟨5, some [2]⟩)] } }

/-- Witness for C5 at a concrete input: pruning `c5State` keeps the retained
page row `p` and the icon row `u` it refers to. -/
theorem prune_preserves_referenced_rows_witness :
    alookup "p" (pruneUnretainedIcons c5State).m_syncDB.pageRows =
        alookup "p" c5State.m_syncDB.pageRows ∧
      alookup "u" (pruneUnretainedIcons c5State).m_syncDB.iconRows =
        alookup "u" c5State.m_syncDB.iconRows :=
  ⟨(prune_preserves_referenced_rows c5State "p" "u").1 (by decide),
    (prune_preserves_referenced_rows c5State "p" "u").2 (by decide)⟩

/-! ## The retention invariant -/

/-- Retention invariant: every page URL with a positive retain count is in the
retention set. -/
def RetentionInvariant (s : IconDatabase) : Prop :=
  ∀ p, 0 < pageRetainCount s p → p ∈ s.m_retainedPageURLs

theorem retentionInvariant_of_fields {s t : IconDatabase}
    (hmap : t.m_pageURLToRecordMap = s.m_pageURLToRecordMap)
    (hset : t.m_retainedPageURLs = s.m_retainedPageURLs)
    (h : RetentionInvariant s) : RetentionInvariant t := by
  intro p hp
  rw [hset]
  apply h
  unfold pageRetainCount at hp ⊢
  rw [hmap] at hp
  exact hp

theorem setIconDataForIconURL_fields (s : IconDatabase) (d : Option IconBytes)
    (u : String) (now : Nat) :
    (setIconDataForIconURL s d u now).m_pageURLToRecordMap = s.m_pageURLToRecordMap ∧
      (setIconDataForIconURL s d u now).m_retainedPageURLs = s.m_retainedPageURLs := by
  unfold setIconDataForIconURL
  split
  · exact ⟨rfl, rfl⟩
  · split
    · exact ⟨rfl, rfl⟩
    · exact ⟨rfl, rfl⟩

theorem registerImportIfNew_fields (s : IconDatabase) (p : String) :
    (registerImportIfNew s p).m_pageURLToRecordMap = s.m_pageURLToRecordMap ∧
      (registerImportIfNew s p).m_retainedPageURLs = s.m_retainedPageURLs := by
  unfold registerImportIfNew
  split
  · exact ⟨rfl, rfl⟩
  · exact ⟨rfl, rfl⟩

theorem detachFromOldIcon_fields (s : IconDatabase) (p : String) (o : Option String) :
    (detachFromOldIcon s p o).m_pageURLToRecordMap = s.m_pageURLToRecordMap ∧
      (detachFromOldIcon s p o).m_retainedPageURLs = s.m_retainedPageURLs := by
  cases o with
  | none => exact ⟨rfl, rfl⟩
  | some u =>
    simp only [detachFromOldIcon]
    cases halo : alookup u s.m_iconURLToRecordMap with
    | none => exact ⟨rfl, rfl⟩
    | some r =>
      by_cases hrem : sremove p r.m_retainingPageURLs = [] <;> simp [hrem]

theorem createIconIfAbsent_fields (s : IconDatabase) (u : String) :
    (createIconIfAbsent s u).m_pageURLToRecordMap = s.m_pageURLToRecordMap ∧
      (createIconIfAbsent s u).m_retainedPageURLs = s.m_retainedPageURLs := by
  simp only [createIconIfAbsent]
  cases halo : alookup u s.m_iconURLToRecordMap with
  | none => exact ⟨rfl, rfl⟩
  | some r => exact ⟨rfl, rfl⟩

theorem retentionInvariant_retain (s : IconDatabase) (pageURL : String)
    (h : RetentionInvariant s) : RetentionInvariant (retainIconForPageURL s pageURL) := by
  by_cases hp : pageURL = ""
  · rw [show retainIconForPageURL s pageURL = s by simp [retainIconForPageURL, hp]]
    exact h
  · cases hl : alookup pageURL s.m_pageURLToRecordMap with
    | some r =>
      have heq : retainIconForPageURL s pageURL =
          { s with
            m_pageURLToRecordMap :=
              aupsert pageURL { r with m_retainCount := r.m_retainCount + 1 }
                s.m_pageURLToRecordMap
            m_retainedPageURLs := sinsert pageURL s.m_retainedPageURLs } := by
        simp [retainIconForPageURL, hp, hl]
      rw [heq]
      intro q hq
      by_cases hqp : q = pageURL
      · subst hqp
        exact mem_sinsert.mpr (Or.inl rfl)
      · refine mem_sinsert.mpr (Or.inr (h q ?_))
        simp only [pageRetainCount] at hq ⊢
        rwa [alookup_aupsert_ne hqp] at hq
    | none =>
      have heq : retainIconForPageURL s pageURL =
          { s with
            m_pageURLToRecordMap :=
              aupsert pageURL ⟨pageURL, none, 1⟩ s.m_pageURLToRecordMap
            m_retainedPageURLs := sinsert pageURL s.m_retainedPageURLs } := by
        simp [retainIconForPageURL, hp, hl]
      rw [heq]
      intro q hq
      by_cases hqp : q = pageURL
      · subst hqp
        exact mem_sinsert.mpr (Or.inl rfl)
      · refine mem_sinsert.mpr (Or.inr (h q ?_))
        simp only [pageRetainCount] at hq ⊢
        rwa [alookup_aupsert_ne hqp] at hq

theorem retentionInvariant_release (s : IconDatabase) (pageURL : String)
    (h : RetentionInvariant s) : RetentionInvariant (releaseIconForPageURL s pageURL) := by
  by_cases hp : pageURL = ""
  · rw [show releaseIconForPageURL s pageURL = s by simp [releaseIconForPageURL, hp]]
    exact h
  · cases hl : alookup pageURL s.m_pageURLToRecordMap with
    | none =>
      rw [show releaseIconForPageURL s pageURL = s by simp [releaseIconForPageURL, hp, hl]]
      exact h
    | some r =>
      by_cases h0 : r.m_retainCount = 0
      · rw [show releaseIconForPageURL s pageURL = s by
          simp [releaseIconForPageURL, hp, hl, h0]]
        exact h
      · by_cases h1 : r.m_retainCount = 1
        · by_cases hps : (alookup pageURL s.m_pageURLsPendingSync).isSome
          · have heq : releaseIconForPageURL s pageURL =
                { s with
                  m_pageURLToRecordMap :=
                    aupsert pageURL { r with m_retainCount := 0 } s.m_pageURLToRecordMap
                  m_retainedPageURLs := sremove pageURL s.m_retainedPageURLs } := by
              simp [releaseIconForPageURL, hp, hl, h0, h1, hps]
            rw [heq]
            intro q hq
            by_cases hqp : q = pageURL
            · subst hqp
              exfalso
              simp only [pageRetainCount] at hq
              rw [alookup_aupsert_self] at hq
              simp at hq
            · refine mem_sremove.mpr ⟨h q ?_, hqp⟩
              simp only [pageRetainCount] at hq ⊢
              rwa [alookup_aupsert_ne hqp] at hq
          · have key : ∀ t : IconDatabase,
                t.m_pageURLToRecordMap = aerase pageURL s.m_pageURLToRecordMap →
                t.m_retainedPageURLs = sremove pageURL s.m_retainedPageURLs →
                RetentionInvariant t := by
              intro t hmap hset q hq
              by_cases hqp : q = pageURL
              · subst hqp
                exfalso
                simp only [pageRetainCount, hmap] at hq
                rw [alookup_aerase_self] at hq
                simp at hq
              · rw [hset]
                refine mem_sremove.mpr ⟨h q ?_, hqp⟩
                simp only [pageRetainCount, hmap] at hq
                rwa [alookup_aerase_ne hqp] at hq
            cases hi : r.m_iconURL with
            | none =>
              have heq : releaseIconForPageURL s pageURL =
                  { s with
                    m_pageURLToRecordMap := aerase pageURL s.m_pageURLToRecordMap
                    m_retainedPageURLs := sremove pageURL s.m_retainedPageURLs } := by
                simp [releaseIconForPageURL, hp, hl, h0, h1, hps, hi]
              rw [heq]
              exact key _ rfl rfl
            | some u =>
              cases hiu : alookup u s.m_iconURLToRecordMap with
              | none =>
                have heq : releaseIconForPageURL s pageURL =
                    { s with
                      m_pageURLToRecordMap := aerase pageURL s.m_pageURLToRecordMap
                      m_retainedPageURLs := sremove pageURL s.m_retainedPageURLs } := by
                  simp [releaseIconForPageURL, hp, hl, h0, h1, hps, hi, hiu]
                rw [heq]
                exact key _ rfl rfl
              | some ir =>
                have heq : releaseIconForPageURL s pageURL =
                    { s with
                      m_pageURLToRecordMap := aerase pageURL s.m_pageURLToRecordMap
                      m_retainedPageURLs := sremove pageURL s.m_retainedPageURLs
                      m_iconURLToRecordMap :=
                        aupsert u
                          { ir with
                            m_retainingPageURLs := sremove pageURL ir.m_retainingPageURLs }
                          s.m_iconURLToRecordMap } := by
                  simp [releaseIconForPageURL, hp, hl, h0, h1, hps, hi, hiu]
                rw [heq]
                exact key _ rfl rfl
        · have heq : releaseIconForPageURL s pageURL =
              { s with
                m_pageURLToRecordMap :=
                  aupsert pageURL { r with m_retainCount := r.m_retainCount - 1 }
                    s.m_pageURLToRecordMap } := by
            simp [releaseIconForPageURL, hp, hl, h0, h1]
          rw [heq]
          intro q hq
          by_cases hqp : q = pageURL
          · rw [hqp]
            exact h pageURL (by simp only [pageRetainCount, hl]; omega)
          · exact h q (by
              simp only [pageRetainCount] at hq ⊢
              rwa [alookup_aupsert_ne hqp] at hq)

theorem importPageRow_fold_count {rows : List (String × Option String)}
    {m : List (String × PageURLRecord)} {q : String} {rq : PageURLRecord}
    (h : alookup q (rows.foldl importPageRow m) = some rq)
    (hc : 0 < rq.m_retainCount) : alookup q m = some rq := by
  induction rows generalizing m with
  | nil => exact h
  | cons row t ih =>
    have h2 : alookup q (importPageRow m row) = some rq := ih h
    unfold importPageRow at h2
    cases hlr : alookup row.1 m with
    | some v => rwa [hlr] at h2
    | none =>
      rw [hlr] at h2
      by_cases hqr : q = row.1
      · subst hqr
        rw [alookup_aupsert_self] at h2
        injection h2 with h3
        rw [← h3] at hc
        simp at hc
      · rwa [alookup_aupsert_ne hqr] at h2

theorem setIconURLForPageURL_retainedPageURLs (s : IconDatabase) (iconURL pageURL : String) :
    (setIconURLForPageURL s iconURL pageURL).m_retainedPageURLs = s.m_retainedPageURLs := by
  unfold setIconURLForPageURL
  split
  · rfl
  · split
    · rfl
    · cases hl : alookup pageURL s.m_pageURLToRecordMap with
      | some r =>
        simp only [hl]
        split
        · rfl
        · dsimp only
          rw [(createIconIfAbsent_fields _ _).2, (detachFromOldIcon_fields _ _ _).2,
            (registerImportIfNew_fields _ _).2]
      | none =>
        simp only [hl]
        split
        · rfl
        · dsimp only
          rw [(createIconIfAbsent_fields _ _).2, (detachFromOldIcon_fields _ _ _).2,
            (registerImportIfNew_fields _ _).2]

theorem setIconURLForPageURL_pageRetainCount (s : IconDatabase) (iconURL pageURL q : String) :
    pageRetainCount (setIconURLForPageURL s iconURL pageURL) q = pageRetainCount s q := by
  unfold setIconURLForPageURL
  split
  · rfl
  · split
    · rfl
    · cases hl : alookup pageURL s.m_pageURLToRecordMap with
      | some r =>
        simp only [hl]
        split
        · rfl
        · by_cases hqp : q = pageURL
          · rw [hqp]
            simp only [pageRetainCount]
            rw [alookup_aupsert_self, hl]
          · simp only [pageRetainCount]
            rw [alookup_aupsert_ne hqp, (createIconIfAbsent_fields _ _).1,
              (detachFromOldIcon_fields _ _ _).1, (registerImportIfNew_fields _ _).1]
      | none =>
        simp only [hl]
        split
        · rfl
        · by_cases hqp : q = pageURL
          · rw [hqp]
            simp only [pageRetainCount]
            rw [alookup_aupsert_self, hl]
          · simp only [pageRetainCount]
            rw [alookup_aupsert_ne hqp, (createIconIfAbsent_fields _ _).1,
              (detachFromOldIcon_fields _ _ _).1, (registerImportIfNew_fields _ _).1]

theorem retentionInvariant_applyOp (s : IconDatabase) (op : IconDatabaseOp)
    (h : RetentionInvariant s) : RetentionInvariant (applyOp s op) := by
  cases op with
  | retain p => exact retentionInvariant_retain s p h
  | release p => exact retentionInvariant_release s p h
  | setIconData d u now =>
    exact retentionInvariant_of_fields (setIconDataForIconURL_fields s d u now).1
      (setIconDataForIconURL_fields s d u now).2 h
  | setIconURL u p =>
    intro q hq
    rw [show (applyOp s (IconDatabaseOp.setIconURL u p)).m_retainedPageURLs =
        s.m_retainedPageURLs from setIconURLForPageURL_retainedPageURLs s u p] at *
    exact h q (by rwa [show pageRetainCount (applyOp s (IconDatabaseOp.setIconURL u p)) q =
      pageRetainCount s q from setIconURLForPageURL_pageRetainCount s u p q] at hq)
  | setPrivateBrowsing b => exact retentionInvariant_of_fields rfl rfl h
  | setEnabledFlag b => exact retentionInvariant_of_fields rfl rfl h
  | removeAll =>
    intro q hq
    exfalso
    simp [pageRetainCount, applyOp, removeAllIcons, alookup] at hq
  | urlImport =>
    intro q hq
    have hq2 : 0 < pageRetainCount s q := by
      simp only [pageRetainCount] at hq ⊢
      cases hfl : alookup q (s.m_syncDB.pageRows.foldl importPageRow s.m_pageURLToRecordMap) with
      | none =>
        rw [show (applyOp s IconDatabaseOp.urlImport).m_pageURLToRecordMap =
          s.m_syncDB.pageRows.foldl importPageRow s.m_pageURLToRecordMap from rfl, hfl] at hq
        simp at hq
      | some rq =>
        rw [show (applyOp s IconDatabaseOp.urlImport).m_pageURLToRecordMap =
          s.m_syncDB.pageRows.foldl importPageRow s.m_pageURLToRecordMap from rfl, hfl] at hq
        rw [importPageRow_fold_count hfl hq]
        exact hq
    exact h q hq2
  | readDB => exact retentionInvariant_of_fields rfl rfl h
  | writeDB => exact retentionInvariant_of_fields rfl rfl h
  | prune => exact retentionInvariant_of_fields rfl rfl h

theorem reachable_retentionInvariant {s : IconDatabase}
    (hreach : ReachableIconDatabase s) : RetentionInvariant s := by
  induction hreach with
  | start =>
    intro q hq
    simp [pageRetainCount, initialIconDatabase, alookup] at hq
  | step op hs ih => exact retentionInvariant_applyOp _ op ih

/-- C4: in every reachable state, every page URL with a positive retain count
has a `PageURLRecord` in the in-memory page map and is reachable from the
retention set; this holds after every operation (a release that brings the
count to 0 simply makes the premise false). -/
theorem retained_page_has_record_and_multiset (s : IconDatabase)
    (hreach : ReachableIconDatabase s) (pageURL : String)
    (h : 0 < pageRetainCount s pageURL) :
    (∃ r, alookup pageURL s.m_pageURLToRecordMap = some r ∧ 0 < r.m_retainCount) ∧
      pageURL ∈ s.m_retainedPageURLs := by
  have inv : RetentionInvariant s := reachable_retentionInvariant hreach
  refine ⟨?_, inv pageURL h⟩
  unfold pageRetainCount at h
  cases hl : alookup pageURL s.m_pageURLToRecordMap with
  | none =>
    rw [hl] at h
    simp at h
  | some r =>
    rw [hl] at h
    exact ⟨r, rfl, h⟩

/-- Witness for C4 at a concrete reachable state: after retaining page `p` from
the fresh database, `p` has a positively retained record and is in the
retention set. -/
theorem retained_page_has_record_and_multiset_witness :
    (∃ r, alookup "p"
        (applyOp initialIconDatabase (IconDatabaseOp.retain "p")).m_pageURLToRecordMap =
          some r ∧ 0 < r.m_retainCount) ∧
      "p" ∈ (applyOp initialIconDatabase (IconDatabaseOp.retain "p")).m_retainedPageURLs :=
  retained_page_has_record_and_multiset _
    (ReachableIconDatabase.step (IconDatabaseOp.retain "p") ReachableIconDatabase.start)
    "p" (by decide)

/-! ## Retain/release round trip -/

/-- The consistency guard under which retain-then-release restores the state:
the page URL's map entry, retention-set membership and pending-sync presence
agree (a positive count sits in the retention set; a zero-count record exists
only while a pending write references it and is outside the set; an absent
record has neither set membership nor a pending write). -/
def retainReleaseOk (s : IconDatabase) (pageURL : String) : Bool :=
  match alookup pageURL s.m_pageURLToRecordMap with
  | some r =>
    decide ((0 < r.m_retainCount ∧ pageURL ∈ s.m_retainedPageURLs) ∨
      (r.m_retainCount = 0 ∧ ¬ pageURL ∈ s.m_retainedPageURLs ∧
        (alookup pageURL s.m_pageURLsPendingSync).isSome = true))
  | none =>
    decide (¬ pageURL ∈ s.m_retainedPageURLs ∧
      (alookup pageURL s.m_pageURLsPendingSync).isSome = false)

/-- C7 (amended): retaining and then releasing the same page URL restores the
database state exactly, in every state whose page-map entry, retention-set
membership and pending-sync presence for that URL are mutually consistent. -/
theorem retain_release_roundtrip (s : IconDatabase) (pageURL : String)
    (h : retainReleaseOk s pageURL = true) :
    releaseIconForPageURL (retainIconForPageURL s pageURL) pageURL = s := by
  by_cases hp : pageURL = ""
  · simp [retainIconForPageURL, releaseIconForPageURL, hp]
  · obtain ⟨en, pb, ic, imap, pmap, rset, psync, isync, pimp, pint, iread, db⟩ := s
    cases hl : alookup pageURL pmap with
    | some r =>
      obtain ⟨rpu, riu, rc⟩ := r
      simp only [retainReleaseOk, hl, decide_eq_true_eq] at h
      have hret : retainIconForPageURL
          ⟨en, pb, ic, imap, pmap, rset, psync, isync, pimp, pint, iread, db⟩ pageURL =
          ⟨en, pb, ic, imap, aupsert pageURL ⟨rpu, riu, rc + 1⟩ pmap,
            sinsert pageURL rset, psync, isync, pimp, pint, iread, db⟩ := by
        simp [retainIconForPageURL, hp, hl]
      rcases h with ⟨hpos, hmem⟩ | ⟨h0, hnmem, hpend⟩
      · have hne1 : rc + 1 ≠ 1 := by omega
        rw [hret, sinsert_of_mem hmem]
        simp [releaseIconForPageURL, hp, alookup_aupsert_self, hne1, aupsert_aupsert,
          aupsert_self_of_alookup hl]
      · subst h0
        rw [hret]
        simp [releaseIconForPageURL, hp, alookup_aupsert_self, hpend, aupsert_aupsert,
          aupsert_self_of_alookup hl, sremove_sinsert_of_not_mem hnmem]
    | none =>
      simp only [retainReleaseOk, hl, decide_eq_true_eq] at h
      obtain ⟨hnmem, hpend⟩ := h
      have hret : retainIconForPageURL
          ⟨en, pb, ic, imap, pmap, rset, psync, isync, pimp, pint, iread, db⟩ pageURL =
          ⟨en, pb, ic, imap, aupsert pageURL ⟨pageURL, none, 1⟩ pmap,
            sinsert pageURL rset, psync, isync, pimp, pint, iread, db⟩ := by
        simp [retainIconForPageURL, hp, hl]
      rw [hret]
      simp [releaseIconForPageURL, hp, alookup_aupsert_self, hpend,
        aerase_aupsert_of_alookup_none _ hl, sremove_sinsert_of_not_mem hnmem]

/-- A reachable state on which C7 as stated fails: page `p` was associated with
icon `u` and the association already flushed to disk, leaving a zero-retain-count
record with no pending write. -/
def c7State : IconDatabase :=
  writeToDatabase (setIconURLForPageURL initialIconDatabase "u" "p")

/-- Counterexample for C7 as stated: on `c7State`, retaining and then releasing
page `p` does not restore the state (the release removes the pre-existing
zero-count record). -/
theorem retain_release_roundtrip_cex :
    releaseIconForPageURL (retainIconForPageURL c7State "p") "p" ≠ c7State := by
  decide

/-- A concrete consistent state for the C7 witness: page `p` retained twice. -/
def c7OkState : IconDatabase :=
  { initialIconDatabase with
    m_pageURLToRecordMap := [("p", ⟨"p", none, 2⟩)]
    m_retainedPageURLs := ["p"] }

/-- Witness for the amended C7 at a concrete input. -/
theorem retain_release_roundtrip_witness :
    releaseIconForPageURL (retainIconForPageURL c7OkState "p") "p" = c7OkState :=
  retain_release_roundtrip c7OkState "p" (by decide)

/-! ## Private browsing and persistence -/

theorem pageFold_iconRows (snaps : List (String × PageURLSnapshot)) (st : PersistentStore) :
    (snaps.foldl (fun acc e => applyPageSnapshot acc e.2) st).iconRows = st.iconRows := by
  induction snaps generalizing st with
  | nil => rfl
  | cons e t ih =>
    rw [List.foldl_cons, ih]
    unfold applyPageSnapshot
    split <;> rfl

theorem iconFold_lookup (snaps : List (String × IconSnapshot)) (st : PersistentStore)
    {u : String} (h : ∀ e ∈ snaps, e.2.m_iconURL ≠ u) :
    alookup u (snaps.foldl (fun acc e => applyIconSnapshot acc e.2) st).iconRows =
      alookup u st.iconRows := by
  induction snaps generalizing st with
  | nil => rfl
  | cons e t ih =>
    rw [List.foldl_cons, ih _ fun e2 he2 => h e2 (List.mem_cons_of_mem _ he2)]
    have hne : e.2.m_iconURL ≠ u := h e (List.mem_cons_self _ _)
    unfold applyIconSnapshot
    split
    · unfold removeIconFromStore
      exact alookup_aerase_ne (Ne.symm hne) _
    · exact alookup_aupsert_ne (Ne.symm hne) _ _

theorem writeToDatabase_iconRow_not_pending {s : IconDatabase} {u : String}
    (h : ∀ e ∈ s.m_iconsPendingSync, e.2.m_iconURL ≠ u) :
    alookup u (writeToDatabase s).m_syncDB.iconRows = alookup u s.m_syncDB.iconRows := by
  unfold writeToDatabase
  dsimp only
  rw [iconFold_lookup _ _ h, pageFold_iconRows]

/-- C3 (amended): while private browsing is enabled, `setIconDataForIconURL`
and `setIconURLForPageURL` are suppressed entirely (in particular nothing is
appended to the pending-sync queues), enabling the flag leaves all in-memory
reads unchanged, and for every icon URL with no pending-sync entry at the time
private browsing was enabled, the bytes persisted after close and reopen equal
the bytes persisted before (a pending write enqueued earlier still flushes at
close, which is the correction). -/
theorem private_browsing_suppresses_writes (s : IconDatabase) (bytes : Option IconBytes)
    (dataURL assocIcon assocPage q : String) (now : Nat) :
    (setIconDataForIconURL (setPrivateBrowsingEnabled s true) bytes dataURL now =
        setPrivateBrowsingEnabled s true) ∧
    (setIconURLForPageURL (setPrivateBrowsingEnabled s true) assocIcon assocPage =
        setPrivateBrowsingEnabled s true) ∧
    (∀ p, iconForPageURL (setPrivateBrowsingEnabled s true) p = iconForPageURL s p) ∧
    ((∀ e ∈ s.m_iconsPendingSync, e.2.m_iconURL ≠ q) →
      persistedIconRow
          (openDatabase (closeDatabase
            (setIconDataForIconURL (setPrivateBrowsingEnabled s true) bytes dataURL now))) q =
        persistedIconRow s q) := by
  have e1 : setIconDataForIconURL (setPrivateBrowsingEnabled s true) bytes dataURL now =
      setPrivateBrowsingEnabled s true := by
    simp [setIconDataForIconURL, setPrivateBrowsingEnabled]
  have e2 : setIconURLForPageURL (setPrivateBrowsingEnabled s true) assocIcon assocPage =
      setPrivateBrowsingEnabled s true := by
    simp [setIconURLForPageURL, setPrivateBrowsingEnabled]
  refine ⟨e1, e2, fun p => rfl, fun hq => ?_⟩
  rw [e1]
  unfold persistedIconRow openDatabase closeDatabase performURLImport
  dsimp only
  exact writeToDatabase_iconRow_not_pending hq

/-- A state with a pending (not yet flushed) write for icon `u`, from before
private browsing is enabled. -/
def c3PreState : IconDatabase :=
  setIconDataForIconURL initialIconDatabase (some [1]) "u" 10

/-- Counterexample for C3 as stated: starting from `c3PreState`, enabling
private browsing and performing a (suppressed) write, then closing and
reopening, the persisted bytes for `u` differ from the bytes persisted before
private browsing was enabled, because the pre-existing pending write flushed at
close. -/
theorem private_browsing_cex :
    persistedIconRow
        (openDatabase (closeDatabase
          (setIconDataForIconURL (setPrivateBrowsingEnabled c3PreState true)
            (some [2]) "u" 20))) "u" ≠
      persistedIconRow c3PreState "u" := by
  decide

/-- Witness for the amended C3 at a concrete input: from the fresh database
(no pending writes), a write under private browsing changes nothing and the
persisted bytes for `u` survive close and reopen unchanged. -/
theorem private_browsing_suppresses_writes_witness :
    (setIconDataForIconURL (setPrivateBrowsingEnabled initialIconDatabase true)
        (some [9]) "u" 5 = setPrivateBrowsingEnabled initialIconDatabase true) ∧
      persistedIconRow
          (openDatabase (closeDatabase
            (setIconDataForIconURL (setPrivateBrowsingEnabled initialIconDatabase true)
              (some [9]) "u" 5))) "u" =
        persistedIconRow initialIconDatabase "u" :=
  ⟨(private_browsing_suppresses_writes initialIconDatabase (some [9]) "u" "i" "p" "u" 5).1,
    (private_browsing_suppresses_writes initialIconDatabase (some [9]) "u" "i" "p" "u" 5).2.2.2
      (by decide)⟩
